import Mathlib

/-!
Verification of the doremichord audio core: the ratio/scale engine,
the note/chord registry, and the gate/ducking scheduler.

The definitions below are a shallow embedding of the JavaScript source.
Frequencies, gains and durations are modelled as rationals (the source
uses IEEE doubles; every property checked here is either exact ratio
arithmetic or a clamped-range bound that does not depend on rounding).
Math.sin is abstracted as an arbitrary function argument: the clamping
performed by the code makes the proved range bounds hold for every
choice of that function, in particular for the real sine.
Math.random, used by the Fisher-Yates shuffle and by nothing else, is
modelled as an arbitrary stream of naturals reduced mod the roll range.
The extension lookup of buildChordFrequencies is modelled twice: over
rationals for the five finite-valued single-ratio rows
(buildChordFrequencies), and over a JavaScript-number type with NaN for
the full CHORD_INTERVALS object, whose triad rows pass the truthiness
test and push rootFreq * NaN (buildChordFrequenciesJs).
-/

namespace Doremichord

/-- ROOT_FREQUENCY, the module-level root (261.63 Hz, C4). -/
def ROOT_FREQUENCY : ℚ := 26163 / 100

/-- MAJOR_SCALE_RATIOS: just-intonation ratio of each scale degree,
in source order (Lower La, Lower Ti, Do, Re, Mi, Fa, So, La). -/
def majorScaleRatios : List (ℕ × ℕ) :=
  [(5, 6), (15, 16), (1, 1), (9, 8), (5, 4), (4, 3), (3, 2), (5, 3)]

/-- getFrequencyFromRatio for an array ratio: rootFreq * (ratio[0] / ratio[1]). -/
def getFrequencyFromRatio (ratio : ℕ × ℕ) (rootFreq : ℚ) : ℚ :=
  rootFreq * ((ratio.1 : ℚ) / (ratio.2 : ℚ))

/-- getScaleNoteFrequency: degree-table lookup times 2^octave.
All call sites in the source pass octave = 0. -/
def getScaleNoteFrequency (noteIndex : ℕ) (octave : ℕ) : ℚ :=
  getFrequencyFromRatio (majorScaleRatios.getD noteIndex (1, 1)) ROOT_FREQUENCY * 2 ^ octave

/-- The triad rows of CHORD_INTERVALS (keys "major" and "minor"). -/
def chordIntervalsTriad (chordType : String) : Option (List (ℕ × ℕ)) :=
  if chordType = "major" then some [(1, 1), (5, 4), (3, 2)]
  else if chordType = "minor" then some [(1, 1), (6, 5), (3, 2)]
  else none

/-- The five single-ratio extension rows of CHORD_INTERVALS. The triad
rows "major"/"minor", which the truthiness test of the source also
admits, are not here: the full object is CHORD_INTERVALS below. -/
def chordIntervalsExt (name : String) : Option (ℕ × ℕ) :=
  if name = "seventh" then some (15, 8)
  else if name = "minorSeventh" then some (9, 5)
  else if name = "ninth" then some (9, 4)
  else if name = "eleventh" then some (11, 4)
  else if name = "thirteenth" then some (5, 3)
  else none

/-- buildChordFrequencies over rationals: triad intervals mapped
through getFrequencyFromRatio against the degree root (defaulting to
the major triad when the chord type is unknown), then one frequency
per extension name found among the five single-ratio rows, in request
order. Names with no CHORD_INTERVALS entry at all contribute nothing.
The triad keys "major"/"minor" are truthy entries in the source and
push a NaN, which rationals cannot carry: that full behavior is
modelled by buildChordFrequenciesJs below, which agrees with this
definition whenever no requested extension is a triad key. -/
def buildChordFrequencies (rootNoteIndex : ℕ) (chordType : String)
    (extensions : List String) : List ℚ :=
  let rootFreq := getScaleNoteFrequency rootNoteIndex 0
  let intervals := (chordIntervalsTriad chordType).getD [(1, 1), (5, 4), (3, 2)]
  intervals.map (fun iv => getFrequencyFromRatio iv rootFreq) ++
    extensions.filterMap
      (fun e => (chordIntervalsExt e).map (fun r => getFrequencyFromRatio r rootFreq))

/-- A JavaScript number as the extension loop can produce it: a
finite value (kept exact as a rational) or NaN. -/
inductive JsNum where
  | num (q : ℚ) : JsNum
  | nan : JsNum
  deriving DecidableEq

/-- A row of the CHORD_INTERVALS object: the keys "major" and "minor"
hold an array of two-number ratio arrays (a triad), the five extension
keys hold a single two-number ratio array. -/
inductive ChordRow where
  | triad (rows : List (ℕ × ℕ)) : ChordRow
  | ratio (n d : ℕ) : ChordRow
  deriving DecidableEq

/-- The full CHORD_INTERVALS object, every key included. -/
def CHORD_INTERVALS (name : String) : Option ChordRow :=
  if name = "major" then some (ChordRow.triad [(1, 1), (5, 4), (3, 2)])
  else if name = "minor" then some (ChordRow.triad [(1, 1), (6, 5), (3, 2)])
  else if name = "seventh" then some (ChordRow.ratio 15 8)
  else if name = "minorSeventh" then some (ChordRow.ratio 9 5)
  else if name = "ninth" then some (ChordRow.ratio 9 4)
  else if name = "eleventh" then some (ChordRow.ratio 11 4)
  else if name = "thirteenth" then some (ChordRow.ratio 5 3)
  else none

/-- getFrequencyFromRatio applied to a CHORD_INTERVALS row: a
two-number array [n, d] gives rootFreq * (n / d); a triad row is an
array of arrays, so ratio[0] / ratio[1] divides two arrays and yields
NaN, and rootFreq * NaN = NaN. -/
def getFrequencyFromChordRow (row : ChordRow) (rootFreq : ℚ) : JsNum :=
  match row with
  | ChordRow.ratio n d => JsNum.num (getFrequencyFromRatio (n, d) rootFreq)
  | ChordRow.triad _ => JsNum.nan

/-- The forEach of the triad loop over the resolved intervals value
(CHORD_INTERVALS[chordType] || CHORD_INTERVALS.major): a triad row
iterates its ratio arrays; a two-number extension row used as a chord
type would iterate its two plain numbers, each giving rootFreq times
the number. -/
def triadLoopFrequencies (row : ChordRow) (rootFreq : ℚ) : List ℚ :=
  match row with
  | ChordRow.triad rows => rows.map (fun iv => getFrequencyFromRatio iv rootFreq)
  | ChordRow.ratio n d => [rootFreq * (n : ℚ), rootFreq * (d : ℚ)]

/-- buildChordFrequencies over JavaScript numbers, with the extension
test if (CHORD_INTERVALS[ext]) modelled as the full object lookup: any
present key is pushed — the triad keys "major"/"minor" included, as
NaN — and only absent keys are skipped. -/
def buildChordFrequenciesJs (rootNoteIndex : ℕ) (chordType : String)
    (extensions : List String) : List JsNum :=
  let rootFreq := getScaleNoteFrequency rootNoteIndex 0
  let intervals := (CHORD_INTERVALS chordType).getD (ChordRow.triad [(1, 1), (5, 4), (3, 2)])
  (triadLoopFrequencies intervals rootFreq).map JsNum.num ++
    extensions.filterMap
      (fun e => (CHORD_INTERVALS e).map (fun row => getFrequencyFromChordRow row rootFreq))

/-- scaleDegreeChordTypes: chord quality per scale degree. -/
def scaleDegreeChordTypes : List String :=
  ["minor", "minor", "major", "minor", "minor", "major", "major", "minor"]

/-- The list of voice frequencies startChord creates: one sustained
voice per chord frequency, plus, when bass mode is on, a sub-bass voice
at half the degree root (addBassNoteIfEnabled). -/
def startChordFrequencies (bassMode : Bool) (noteIndex : ℕ)
    (extensions : List String) : List ℚ :=
  let chordType := scaleDegreeChordTypes.getD noteIndex "major"
  let frequencies := buildChordFrequencies noteIndex chordType extensions
  if bassMode then frequencies ++ [getScaleNoteFrequency noteIndex 0 / 2]
  else frequencies

/-- Value of a decimal digit character, none for a non-digit. -/
def digitVal (c : Char) : Option ℕ :=
  if c.isDigit then some (c.toNat - 48) else none

/-- Accumulate the maximal leading run of digits. -/
def parseDigitsAux : List Char → ℕ → ℕ
  | [], acc => acc
  | c :: rest, acc =>
    match digitVal c with
    | some d => parseDigitsAux rest (acc * 10 + d)
    | none => acc

/-- JavaScript parseInt on a token: none (NaN) when the first character
is not a digit, otherwise the value of the leading digit run. -/
def parseIntNat (s : List Char) : Option ℕ :=
  match s with
  | [] => none
  | c :: rest =>
    match digitVal c with
    | some d => some (parseDigitsAux rest d)
    | none => none

/-- noteValue.endsWith "T"): the last character is T. -/
def endsWithT (noteValue : String) : Bool :=
  noteValue.data.getLast? = some 'T'

/-- getNoteDuration: beat = 60/bpm; a token ending in "T" goes through
the four-case triplet lookup (base value taken by parseInt of the
token without its last character) with the plain beat as fallback; any
other token "N" yields beat / N. -/
def getNoteDuration (noteValue : String) (bpm : ℚ) : ℚ :=
  let beatDuration := 60 / bpm
  if endsWithT noteValue then
    let baseValue := (parseIntNat noteValue.data.dropLast).getD 0
    if baseValue = 8 then beatDuration / 3
    else if baseValue = 4 then beatDuration * (2 / 3)
    else if baseValue = 2 then beatDuration * (4 / 3)
    else if baseValue = 1 then beatDuration * (8 / 3)
    else beatDuration
  else
    beatDuration / (((parseIntNat noteValue.data).getD 0 : ℚ))

/-- Fisher-Yates swap step on a list: exchange positions i and j when
both are in range, identity otherwise (in the source both always are). -/
def listSwap (l : List α) (i j : ℕ) : List α :=
  match l[i]?, l[j]? with
  | some a, some b => (l.set i b).set j a
  | _, _ => l

/-- The Fisher-Yates loop of shuffleArray, counting i down to 1; the
random draw for counter value i is rand i reduced mod (i + 1), which
ranges over exactly the values Math.floor(Math.random() * (i + 1))
can take. -/
def fisherYatesAux (rand : ℕ → ℕ) : ℕ → List α → List α
  | 0, l => l
  | i + 1, l => fisherYatesAux rand i (listSwap l (i + 1) (rand (i + 1) % (i + 1 + 1)))

/-- shuffleArray: copy the input, then run the Fisher-Yates loop from
index length - 1 down to 1. -/
def shuffleArray (array : List α) (rand : ℕ → ℕ) : List α :=
  fisherYatesAux rand (array.length - 1) array

/-- The observable effect the gate code leaves on the gateGain bus
node: nothing scheduled yet, a forced cancel-and-set to 1.0, or a
one-cycle duck curve for a given note value and ducking amount. -/
inductive GainSched where
  | initial : GainSched
  | forcedOne : GainSched
  | curveApplied (noteValue : String) (duckingAmount : ℚ) : GainSched
  deriving DecidableEq

/-- The module-level gate state: gateAmount, gateSpeedSequence,
gateBaseSequence, gateSequenceIndex, gateRandomEnabled, the pending
gateTimeout handle (modelled as a flag), and the gateGain schedule. -/
structure GateState where
  gateAmount : ℚ
  gateSpeedSequence : List String
  gateBaseSequence : List String
  gateSequenceIndex : ℕ
  gateRandomEnabled : Bool
  timeoutPending : Bool
  sched : GainSched
  deriving DecidableEq

/-- One synchronous run of scheduleNextGateCycle: guard on amount and
sequence, reshuffle (and reset the cursor) in random mode, read the
token at the cursor, apply the duck curve for it, advance the cursor
mod the sequence length, and arm the timer for the next cycle. -/
def scheduleNextGateCycle (rand : ℕ → ℕ) (s : GateState) : GateState :=
  if s.gateAmount = 0 ∨ s.gateSpeedSequence = [] then s
  else
    let s1 :=
      if s.gateRandomEnabled ∧ s.gateBaseSequence.length > 0 then
        { s with gateSpeedSequence := shuffleArray s.gateBaseSequence rand,
                 gateSequenceIndex := 0 }
      else s
    let noteValue := s1.gateSpeedSequence.getD s1.gateSequenceIndex ""
    { s1 with
      sched := GainSched.curveApplied noteValue (s1.gateAmount / 100),
      gateSequenceIndex := (s1.gateSequenceIndex + 1) % s1.gateSpeedSequence.length,
      timeoutPending := true }

/-- startGateLoop: clear the pending timer; with amount 0 or an empty
sequence cancel scheduled values and force the gain to 1.0; otherwise
reset the cursor and schedule the first cycle. -/
def startGateLoop (rand : ℕ → ℕ) (s : GateState) : GateState :=
  let s1 := { s with timeoutPending := false }
  if s1.gateAmount = 0 then { s1 with sched := GainSched.forcedOne }
  else if s1.gateSpeedSequence = [] then { s1 with sched := GainSched.forcedOne }
  else scheduleNextGateCycle rand { s1 with gateSequenceIndex := 0 }

/-- updateGateAmount: store the amount and restart the loop. -/
def updateGateAmount (rand : ℕ → ℕ) (amount : ℚ) (s : GateState) : GateState :=
  startGateLoop rand { s with gateAmount := amount }

/-- updateGateSpeedSequence: an empty sequence is replaced by the
default sequence consisting of the single token "4"; the working copy
is a shuffle of the base in random mode and a plain copy otherwise;
the cursor resets and the loop restarts. -/
def updateGateSpeedSequence (rand : ℕ → ℕ) (sequence : List String)
    (randomEnabled : Bool) (s : GateState) : GateState :=
  let base := if sequence.length > 0 then sequence else ["4"]
  startGateLoop rand
    { s with
      gateBaseSequence := base,
      gateRandomEnabled := randomEnabled,
      gateSpeedSequence := if randomEnabled then shuffleArray base rand else base,
      gateSequenceIndex := 0 }

/-- One sample of the gate duck curve built inside scheduleGateCycle:
the 3-term Fourier square-wave approximation, clamped to [-1, 1],
remapped to [0, 1], remapped to the gain range, clamped to [0, 1].
The sine function and pi are abstract parameters; the bounds proved
about the curve hold for every choice of them. -/
def gateCurveSample (sinf : ℚ → ℚ) (pi gateSpeed sampleRate duckingAmount : ℚ)
    (i : ℕ) : ℚ :=
  let t := (i : ℚ) / sampleRate
  let fundamentalFreq := 1 / gateSpeed
  let omega := 2 * pi * fundamentalFreq
  let term1 := sinf (omega * t)
  let term3 := (1 / 3) * sinf (3 * omega * t)
  let term5 := (1 / 5) * sinf (5 * omega * t)
  let squareApprox := (4 / pi) * (term1 + term3 + term5)
  let clampedApprox := max (-1) (min 1 squareApprox)
  let normalized := (clampedApprox + 1) / 2
  let gainValue := (1 - duckingAmount) + duckingAmount * normalized
  max 0 (min 1 gainValue)

/-- The full duck curve of one gate cycle: curveLength samples indexed
by i, with curveLength = ceil(gateSpeed * sampleRate) at call sites. -/
def scheduleGateCycleCurve (sinf : ℚ → ℚ) (pi gateSpeed sampleRate duckingAmount : ℚ)
    (curveLength : ℕ) : List ℚ :=
  (List.range curveLength).map (gateCurveSample sinf pi gateSpeed sampleRate duckingAmount)

/-- The note/chord registry state. activeNotes is the keyed table of
the source; voices are identified by the order of their creation, with
live v recording whether voice v has been started and not yet had
stopNote requested on it, and owner v the noteKey it was created
under. nextVoice counts the voices ever created. -/
structure RegistryState where
  activeNotes : String → Option (List ℕ)
  live : ℕ → Bool
  owner : ℕ → Option String
  nextVoice : ℕ

/-- The initial registry: activeNotes = empty object, no voices. -/
def initRegistry : RegistryState :=
  { activeNotes := fun _ => none, live := fun _ => false,
    owner := fun _ => none, nextVoice := 0 }

/-- stopNote requested on every voice of a list (stopChord, or the
forEach loops of startNote and stopAllNotes). -/
def stopVoices (s : RegistryState) (vs : List ℕ) : RegistryState :=
  { s with live := fun v => if v ∈ vs then false else s.live v }

/-- The n fresh voice ids created by a trigger. -/
def freshVoices (start n : ℕ) : List ℕ :=
  (List.range n).map (fun k => start + k)

/-- Common body of startNote and startChord: stop every voice of the
existing entry for noteKey if there is one, create n fresh voices
(n = 1 for a note, one per chord frequency for a chord, plus one when
bass mode adds a sub bass), and store them as the entry for noteKey. -/
def startVoices (s : RegistryState) (noteKey : String) (n : ℕ) : RegistryState :=
  let s1 :=
    match s.activeNotes noteKey with
    | some vs => stopVoices s vs
    | none => s
  let ids := freshVoices s1.nextVoice n
  { activeNotes := fun k => if k = noteKey then some ids else s1.activeNotes k,
    live := fun v => if v ∈ ids then true else s1.live v,
    owner := fun v => if v ∈ ids then some noteKey else s1.owner v,
    nextVoice := s1.nextVoice + n }

/-- stopNoteByKey: when an entry exists, stop all its voices (through
stopChord when it has several, stopNote when it has one — both stop
every voice) and delete the entry; otherwise do nothing. -/
def stopNoteByKey (s : RegistryState) (noteKey : String) : RegistryState :=
  match s.activeNotes noteKey with
  | some vs =>
    let s1 := stopVoices s vs
    { s1 with activeNotes := fun k => if k = noteKey then none else s1.activeNotes k }
  | none => s

/-- The registry calls the claims range over: startNote (1 voice, plus
a bass voice when bass mode is on and a degree index was supplied),
startChord (one voice per chord frequency, plus optional bass), and
the release stopNoteByKey. -/
inductive RegEvent where
  | noteOn (noteKey : String) (bass : Bool)
  | chordOn (noteKey : String) (nFreqs : ℕ) (bass : Bool)
  | keyOff (noteKey : String)
  deriving DecidableEq

/-- Interpretation of one registry call on the state. -/
def regStep (s : RegistryState) : RegEvent → RegistryState
  | RegEvent.noteOn noteKey bass => startVoices s noteKey (1 + if bass then 1 else 0)
  | RegEvent.chordOn noteKey nFreqs bass =>
      startVoices s noteKey (nFreqs + if bass then 1 else 0)
  | RegEvent.keyOff noteKey => stopNoteByKey s noteKey

/-- The registry state after a sequence of calls from startup. -/
def regRun (events : List RegEvent) : RegistryState :=
  events.foldl regStep initRegistry

/-- A concrete running gate state: 50 percent ducking, sequence ["8"],
random off, a cycle in flight. -/
def gateStateRunning : GateState :=
  { gateAmount := 50, gateSpeedSequence := ["8"], gateBaseSequence := ["8"],
    gateSequenceIndex := 0, gateRandomEnabled := false, timeoutPending := true,
    sched := GainSched.initial }

/-- A concrete gate state with random mode on and base ["8", "4"]. -/
def gateStateRandom : GateState :=
  { gateAmount := 50, gateSpeedSequence := ["8", "4"], gateBaseSequence := ["8", "4"],
    gateSequenceIndex := 0, gateRandomEnabled := true, timeoutPending := false,
    sched := GainSched.initial }

/-! ### Shuffle permutation lemmas -/

theorem set_cons_perm (t : List α) (k : ℕ) (a b : α) (h : t[k]? = some b) :
    List.Perm (b :: t.set k a) (a :: t) := by
  induction t generalizing k with
  | nil => simp at h
  | cons c t ih =>
    cases k with
    | zero =>
      simp only [List.getElem?_cons_zero, Option.some.injEq] at h
      subst h
      simpa using List.Perm.swap a c t
    | succ m =>
      simp only [List.getElem?_cons_succ] at h
      have step := ih m h
      have hset : (c :: t).set (m + 1) a = c :: t.set m a := by simp
      rw [hset]
      exact List.Perm.trans (List.Perm.swap c b (t.set m a))
        (List.Perm.trans (List.Perm.cons c step) (List.Perm.swap a c t))

theorem listSwap_perm (l : List α) (i j : ℕ) : List.Perm (listSwap l i j) l := by
  induction l generalizing i j with
  | nil => simp [listSwap]
  | cons c t ih =>
    cases i with
    | zero =>
      cases j with
      | zero => simp [listSwap]
      | succ m =>
        rw [listSwap]
        simp only [List.getElem?_cons_zero, List.getElem?_cons_succ]
        cases h : t[m]? with
        | none => exact List.Perm.refl _
        | some b =>
          simp only [List.set_cons_zero, List.set_cons_succ]
          exact set_cons_perm t m c b h
    | succ n =>
      cases j with
      | zero =>
        rw [listSwap]
        simp only [List.getElem?_cons_zero, List.getElem?_cons_succ]
        cases h : t[n]? with
        | none => exact List.Perm.refl _
        | some a =>
          simp only [List.set_cons_succ, List.set_cons_zero]
          exact set_cons_perm t n c a h
      | succ m =>
        rw [listSwap]
        simp only [List.getElem?_cons_succ]
        cases h1 : t[n]? with
        | none => exact List.Perm.refl _
        | some a =>
          cases h2 : t[m]? with
          | none => exact List.Perm.refl _
          | some b =>
            simp only [List.set_cons_succ]
            refine List.Perm.cons c ?step
            have := ih n m
            rw [listSwap, h1, h2] at this
            exact this

theorem fisherYatesAux_perm (rand : ℕ → ℕ) (i : ℕ) (l : List α) :
    List.Perm (fisherYatesAux rand i l) l := by
  induction i generalizing l with
  | zero => simp [fisherYatesAux]
  | succ k ih =>
    rw [fisherYatesAux]
    exact List.Perm.trans (ih _) (listSwap_perm _ _ _)

theorem shuffleArray_perm (array : List α) (rand : ℕ → ℕ) :
    List.Perm (shuffleArray array rand) array :=
  fisherYatesAux_perm rand _ array

/-! ### Registry invariant -/

/-- The registry invariant: every stored voice id was created (is below
nextVoice), is owned by its key and is live; and every live voice sits
in some stored entry. -/
def RegInv (s : RegistryState) : Prop :=
  (∀ k vs, s.activeNotes k = some vs → ∀ v ∈ vs,
    v < s.nextVoice ∧ s.owner v = some k ∧ s.live v = true) ∧
  (∀ v, s.live v = true → ∃ k vs, s.activeNotes k = some vs ∧ v ∈ vs)

theorem mem_freshVoices {start n v : ℕ} :
    v ∈ freshVoices start n ↔ start ≤ v ∧ v < start + n := by
  simp only [freshVoices, List.mem_map, List.mem_range]
  constructor
  · rintro ⟨k, hk, rfl⟩
    omega
  · intro h
    exact ⟨v - start, by omega, by omega⟩

theorem regInv_init : RegInv initRegistry := by
  constructor
  · intro k vs h
    simp [initRegistry] at h
  · intro v h
    simp [initRegistry] at h

theorem startVoices_eq_none (s : RegistryState) (noteKey : String) (n : ℕ)
    (hob : s.activeNotes noteKey = none) :
    startVoices s noteKey n =
      { activeNotes := fun k =>
          if k = noteKey then some (freshVoices s.nextVoice n) else s.activeNotes k,
        live := fun v => if v ∈ freshVoices s.nextVoice n then true else s.live v,
        owner := fun v => if v ∈ freshVoices s.nextVoice n then some noteKey else s.owner v,
        nextVoice := s.nextVoice + n } := by
  simp only [startVoices, hob]

theorem startVoices_eq_some (s : RegistryState) (noteKey : String) (n : ℕ)
    (vs0 : List ℕ) (hob : s.activeNotes noteKey = some vs0) :
    startVoices s noteKey n =
      { activeNotes := fun k =>
          if k = noteKey then some (freshVoices s.nextVoice n) else s.activeNotes k,
        live := fun v => if v ∈ freshVoices s.nextVoice n then true
          else if v ∈ vs0 then false else s.live v,
        owner := fun v => if v ∈ freshVoices s.nextVoice n then some noteKey else s.owner v,
        nextVoice := s.nextVoice + n } := by
  simp only [startVoices, stopVoices, hob]

theorem regInv_startVoices (s : RegistryState) (noteKey : String) (n : ℕ)
    (hs : RegInv s) : RegInv (startVoices s noteKey n) := by
  obtain ⟨hA, hB⟩ := hs
  cases hob : s.activeNotes noteKey with
  | none =>
    rw [startVoices_eq_none s noteKey n hob]
    constructor
    · intro k vs hk v hv
      dsimp only at hk ⊢
      by_cases hkey : k = noteKey
      · subst hkey
        rw [if_pos rfl, Option.some.injEq] at hk
        subst hk
        have hb := mem_freshVoices.mp hv
        refine ⟨by omega, by rw [if_pos hv], by rw [if_pos hv]⟩
      · rw [if_neg hkey] at hk
        obtain ⟨hlt, hown, hlive⟩ := hA k vs hk v hv
        have hni : v ∉ freshVoices s.nextVoice n := by
          intro hmem
          have := mem_freshVoices.mp hmem
          omega
        exact ⟨by omega, by rw [if_neg hni]; exact hown, by rw [if_neg hni]; exact hlive⟩
    · intro v hv
      dsimp only at hv ⊢
      by_cases hvi : v ∈ freshVoices s.nextVoice n
      · exact ⟨noteKey, freshVoices s.nextVoice n, by rw [if_pos rfl], hvi⟩
      · rw [if_neg hvi] at hv
        obtain ⟨k0, vs, hk0, hvv⟩ := hB v hv
        have hne : k0 ≠ noteKey := by
          intro heq
          rw [heq, hob] at hk0
          exact Option.noConfusion hk0
        exact ⟨k0, vs, by rw [if_neg hne]; exact hk0, hvv⟩
  | some vs0 =>
    rw [startVoices_eq_some s noteKey n vs0 hob]
    constructor
    · intro k vs hk v hv
      dsimp only at hk ⊢
      by_cases hkey : k = noteKey
      · subst hkey
        rw [if_pos rfl, Option.some.injEq] at hk
        subst hk
        have hb := mem_freshVoices.mp hv
        refine ⟨by omega, by rw [if_pos hv], by rw [if_pos hv]⟩
      · rw [if_neg hkey] at hk
        obtain ⟨hlt, hown, hlive⟩ := hA k vs hk v hv
        have hni : v ∉ freshVoices s.nextVoice n := by
          intro hmem
          have := mem_freshVoices.mp hmem
          omega
        have hn0 : v ∉ vs0 := by
          intro hmem
          obtain ⟨-, hown0, -⟩ := hA noteKey vs0 hob v hmem
          rw [hown0] at hown
          exact hkey (Option.some.injEq _ _ ▸ hown).symm
        refine ⟨by omega, by rw [if_neg hni]; exact hown, ?hl⟩
        rw [if_neg hni, if_neg hn0]
        exact hlive
    · intro v hv
      dsimp only at hv ⊢
      by_cases hvi : v ∈ freshVoices s.nextVoice n
      · exact ⟨noteKey, freshVoices s.nextVoice n, by rw [if_pos rfl], hvi⟩
      · rw [if_neg hvi] at hv
        by_cases hv0 : v ∈ vs0
        · rw [if_pos hv0] at hv
          exact Bool.noConfusion hv
        · rw [if_neg hv0] at hv
          obtain ⟨k0, vs, hk0, hvv⟩ := hB v hv
          have hne : k0 ≠ noteKey := by
            intro heq
            rw [heq, hob, Option.some.injEq] at hk0
            exact hv0 (hk0 ▸ hvv)
          exact ⟨k0, vs, by rw [if_neg hne]; exact hk0, hvv⟩

theorem stopNoteByKey_eq_some (s : RegistryState) (noteKey : String)
    (vs0 : List ℕ) (hob : s.activeNotes noteKey = some vs0) :
    stopNoteByKey s noteKey =
      { activeNotes := fun k => if k = noteKey then none else s.activeNotes k,
        live := fun v => if v ∈ vs0 then false else s.live v,
        owner := s.owner,
        nextVoice := s.nextVoice } := by
  simp only [stopNoteByKey, stopVoices, hob]

theorem stopNoteByKey_eq_none (s : RegistryState) (noteKey : String)
    (hob : s.activeNotes noteKey = none) :
    stopNoteByKey s noteKey = s := by
  simp only [stopNoteByKey, hob]

theorem regInv_stopNoteByKey (s : RegistryState) (noteKey : String)
    (hs : RegInv s) : RegInv (stopNoteByKey s noteKey) := by
  obtain ⟨hA, hB⟩ := hs
  cases hob : s.activeNotes noteKey with
  | none =>
    rw [stopNoteByKey_eq_none s noteKey hob]
    exact ⟨hA, hB⟩
  | some vs0 =>
    rw [stopNoteByKey_eq_some s noteKey vs0 hob]
    constructor
    · intro k vs hk v hv
      dsimp only at hk ⊢
      by_cases hkey : k = noteKey
      · rw [if_pos hkey] at hk
        exact Option.noConfusion hk
      · rw [if_neg hkey] at hk
        obtain ⟨hlt, hown, hlive⟩ := hA k vs hk v hv
        have hn0 : v ∉ vs0 := by
          intro hmem
          obtain ⟨-, hown0, -⟩ := hA noteKey vs0 hob v hmem
          rw [hown0] at hown
          exact hkey (Option.some.injEq _ _ ▸ hown).symm
        exact ⟨hlt, hown, by rw [if_neg hn0]; exact hlive⟩
    · intro v hv
      dsimp only at hv ⊢
      by_cases hv0 : v ∈ vs0
      · rw [if_pos hv0] at hv
        exact Bool.noConfusion hv
      · rw [if_neg hv0] at hv
        obtain ⟨k0, vs, hk0, hvv⟩ := hB v hv
        have hne : k0 ≠ noteKey := by
          intro heq
          rw [heq, hob, Option.some.injEq] at hk0
          exact hv0 (hk0 ▸ hvv)
        exact ⟨k0, vs, by rw [if_neg hne]; exact hk0, hvv⟩

theorem regInv_regStep (s : RegistryState) (e : RegEvent)
    (hs : RegInv s) : RegInv (regStep s e) := by
  cases e with
  | noteOn noteKey bass => exact regInv_startVoices s noteKey _ hs
  | chordOn noteKey nFreqs bass => exact regInv_startVoices s noteKey _ hs
  | keyOff noteKey => exact regInv_stopNoteByKey s noteKey hs

theorem regInv_run (events : List RegEvent) : RegInv (regRun events) := by
  suffices h : ∀ s, RegInv s → RegInv (events.foldl regStep s) from
    h initRegistry regInv_init
  induction events with
  | nil => exact fun s hs => hs
  | cons e rest ih => exact fun s hs => ih (regStep s e) (regInv_regStep s e hs)


/-! ### Claim theorems -/

theorem getNoteDuration_plain (s : String) (n : ℕ) (bpm : ℚ)
    (hT : endsWithT s = false) (hp : parseIntNat s.data = some n) :
    getNoteDuration s bpm = (60 / bpm) / n := by
  rw [getNoteDuration]
  rw [hT]
  simp only [Bool.false_eq_true, if_false, hp, Option.getD_some]

theorem getNoteDuration_8T (bpm : ℚ) : getNoteDuration "8T" bpm = (60 / bpm) / 3 := by
  have hT : endsWithT "8T" = true := by decide
  have hp : parseIntNat "8T".data.dropLast = some 8 := by decide
  rw [getNoteDuration, hT]
  simp only [if_true, hp, Option.getD_some]

theorem getNoteDuration_4T (bpm : ℚ) : getNoteDuration "4T" bpm = (60 / bpm) * (2 / 3) := by
  have hT : endsWithT "4T" = true := by decide
  have hp : parseIntNat "4T".data.dropLast = some 4 := by decide
  rw [getNoteDuration, hT]
  simp only [if_true, hp, Option.getD_some]
  norm_num

theorem getNoteDuration_2T (bpm : ℚ) : getNoteDuration "2T" bpm = (60 / bpm) * (4 / 3) := by
  have hT : endsWithT "2T" = true := by decide
  have hp : parseIntNat "2T".data.dropLast = some 2 := by decide
  rw [getNoteDuration, hT]
  simp only [if_true, hp, Option.getD_some]
  norm_num

theorem getNoteDuration_1T (bpm : ℚ) : getNoteDuration "1T" bpm = (60 / bpm) * (8 / 3) := by
  have hT : endsWithT "1T" = true := by decide
  have hp : parseIntNat "1T".data.dropLast = some 1 := by decide
  rw [getNoteDuration, hT]
  simp only [if_true, hp, Option.getD_some]
  norm_num

/-- C1: At most one active entry exists per noteKey at any time.
startNote and startChord each stop every voice of any existing entry
under the key before storing the new one, so in every state reachable
by a sequence of trigger/release calls, the live voices owned by a key
are exactly the voices of its single stored entry: no two
simultaneously active entries ever exist for one key. -/
theorem atMostOneActiveEntryPerKey (events : List RegEvent) (noteKey : String) (v : ℕ)
    (hlive : (regRun events).live v = true)
    (hown : (regRun events).owner v = some noteKey) :
    ∃ vs, (regRun events).activeNotes noteKey = some vs ∧ v ∈ vs ∧
      ∀ w ∈ vs, (regRun events).live w = true ∧
        (regRun events).owner w = some noteKey := by
  obtain ⟨hA, hB⟩ := regInv_run events
  obtain ⟨k, vs, hk, hv⟩ := hB v hlive
  obtain ⟨-, hown2, -⟩ := hA k vs hk v hv
  rw [hown] at hown2
  injection hown2 with hkk
  subst hkk
  exact ⟨vs, hk, hv, fun w hw => ⟨(hA noteKey vs hk w hw).2.2, (hA noteKey vs hk w hw).2.1⟩⟩

/-- Witness for C1 at the event list [noteOn keyA, noteOn keyA]: after
re-triggering keyA, voice 1 (the second created) is live and owned by
keyA, and the theorem places it in the unique current entry. -/
theorem atMostOneActiveEntryPerKey_witness :
    (regRun [RegEvent.noteOn "keyA" false, RegEvent.noteOn "keyA" false]).live 1 = true ∧
    (regRun [RegEvent.noteOn "keyA" false, RegEvent.noteOn "keyA" false]).owner 1 =
      some "keyA" ∧
    ∃ vs, (regRun [RegEvent.noteOn "keyA" false, RegEvent.noteOn "keyA" false]).activeNotes
        "keyA" = some vs ∧ 1 ∈ vs ∧
      ∀ w ∈ vs,
        (regRun [RegEvent.noteOn "keyA" false, RegEvent.noteOn "keyA" false]).live w = true ∧
        (regRun [RegEvent.noteOn "keyA" false, RegEvent.noteOn "keyA" false]).owner w =
          some "keyA" :=
  ⟨by decide, by decide,
    atMostOneActiveEntryPerKey [RegEvent.noteOn "keyA" false, RegEvent.noteOn "keyA" false]
      "keyA" 1 (by decide) (by decide)⟩

/-- C8: Releasing an absent noteKey is a no-op on the registry, and a
second release of the same key right after a first one does nothing. -/
theorem stopNoteByKey_absent_noop (s : RegistryState) (noteKey : String) :
    (s.activeNotes noteKey = none → stopNoteByKey s noteKey = s) ∧
    stopNoteByKey (stopNoteByKey s noteKey) noteKey = stopNoteByKey s noteKey := by
  constructor
  · intro hob
    exact stopNoteByKey_eq_none s noteKey hob
  · cases hob : s.activeNotes noteKey with
    | none =>
      simp only [stopNoteByKey_eq_none s noteKey hob]
    | some vs0 =>
      apply stopNoteByKey_eq_none
      rw [stopNoteByKey_eq_some s noteKey vs0 hob]
      dsimp only
      rw [if_pos rfl]

/-- Witness for C8 at the empty registry and key keyA. -/
theorem stopNoteByKey_absent_noop_witness :
    initRegistry.activeNotes "keyA" = none ∧
    stopNoteByKey initRegistry "keyA" = initRegistry ∧
    stopNoteByKey (stopNoteByKey initRegistry "keyA") "keyA" =
      stopNoteByKey initRegistry "keyA" :=
  ⟨rfl, (stopNoteByKey_absent_noop initRegistry "keyA").1 rfl,
    (stopNoteByKey_absent_noop initRegistry "keyA").2⟩

/-- C2 counterexample: the claim also asserts
getNoteDuration("4", 120) = 0.5, but the code divides the beat by the
token value, giving 0.5 / 4 = 0.125. -/
theorem getNoteDuration_quarter_at_120_ne_half :
    getNoteDuration "4" 120 ≠ 1 / 2 := by
  have h : getNoteDuration "4" 120 = (60 / 120) / (4 : ℕ) :=
    getNoteDuration_plain "4" 4 120 (by decide) (by decide)
  rw [h]
  norm_num

/-- C2 (amended): with beat = 60/bpm, a plain token "N" yields beat/N
and the triplet tokens yield the four lookup-table cases; at bpm = 120
this gives 0.125 (not 0.5) for "4", 1/6 for "8T", 1/3 for "4T" and 4/3
for "1T". -/
theorem noteDuration_law (bpm : ℚ) (s : String) (n : ℕ)
    (hT : endsWithT s = false) (hp : parseIntNat s.data = some n) :
    getNoteDuration s bpm = (60 / bpm) / n ∧
    getNoteDuration "8T" bpm = (60 / bpm) / 3 ∧
    getNoteDuration "4T" bpm = (60 / bpm) * (2 / 3) ∧
    getNoteDuration "2T" bpm = (60 / bpm) * (4 / 3) ∧
    getNoteDuration "1T" bpm = (60 / bpm) * (8 / 3) ∧
    getNoteDuration "4" 120 = 1 / 8 ∧
    getNoteDuration "8T" 120 = 1 / 6 ∧
    getNoteDuration "4T" 120 = 1 / 3 ∧
    getNoteDuration "1T" 120 = 4 / 3 := by
  refine ⟨getNoteDuration_plain s n bpm hT hp, getNoteDuration_8T bpm,
    getNoteDuration_4T bpm, getNoteDuration_2T bpm, getNoteDuration_1T bpm,
    ?q4, ?q8t, ?q4t, ?q1t⟩
  · rw [getNoteDuration_plain "4" 4 120 (by decide) (by decide)]
    norm_num
  · rw [getNoteDuration_8T 120]
    norm_num
  · rw [getNoteDuration_4T 120]
    norm_num
  · rw [getNoteDuration_1T 120]
    norm_num

/-- Witness for C2 (amended) at the plain token "2" and bpm 120. -/
theorem noteDuration_law_witness :
    endsWithT "2" = false ∧ parseIntNat "2".data = some 2 ∧
    getNoteDuration "2" 120 = (60 / 120) / (2 : ℕ) :=
  ⟨by decide, by decide, (noteDuration_law 120 "2" 2 (by decide) (by decide)).1⟩

/-- C10: a triplet token whose base value is not 8, 4, 2 or 1 falls
through the lookup table to the full-beat fallback 60/bpm. -/
theorem noteDuration_unknown_triplet_fallback (bpm : ℚ) (s : String) (n : ℕ)
    (hbpm : 0 < bpm) (hT : endsWithT s = true)
    (hp : parseIntNat s.data.dropLast = some n)
    (h8 : n ≠ 8) (h4 : n ≠ 4) (h2 : n ≠ 2) (h1 : n ≠ 1) :
    getNoteDuration s bpm = 60 / bpm := by
  rw [getNoteDuration, hT]
  simp only [if_true, hp, Option.getD_some, if_neg h8, if_neg h4, if_neg h2, if_neg h1]

/-- Witness for C10 at the token "16T" and bpm 120. -/
theorem noteDuration_unknown_triplet_fallback_witness :
    (0 : ℚ) < 120 ∧ endsWithT "16T" = true ∧
    parseIntNat "16T".data.dropLast = some 16 ∧
    (16 ≠ 8 ∧ 16 ≠ 4 ∧ 16 ≠ 2 ∧ 16 ≠ 1) ∧
    getNoteDuration "16T" 120 = 60 / 120 :=
  ⟨by decide, by decide, by decide, by decide,
    noteDuration_unknown_triplet_fallback 120 "16T" 16 (by decide) (by decide)
      (by decide) (by decide) (by decide) (by decide) (by decide)⟩

/-- C6: shuffleArray returns a permutation of its input for every
input array and every sequence of random index choices: same length
and same element multiset, never dropping or duplicating entries. -/
theorem shuffleArray_permutation {α : Type} [DecidableEq α]
    (array : List α) (rand : ℕ → ℕ) :
    List.Perm (shuffleArray array rand) array ∧
    (shuffleArray array rand).length = array.length ∧
    ∀ x, List.count x (shuffleArray array rand) = List.count x array := by
  have h := shuffleArray_perm array rand
  exact ⟨h, h.length_eq, fun x => h.count_eq x⟩


theorem duckGain_sample_bounds (d q : ℚ) (h0 : 0 ≤ d) (h1 : d ≤ 1) :
    1 - d ≤ max 0 (min 1 ((1 - d) + d * ((max (-1) (min 1 q) + 1) / 2))) ∧
    0 ≤ max 0 (min 1 ((1 - d) + d * ((max (-1) (min 1 q) + 1) / 2))) ∧
    max 0 (min 1 ((1 - d) + d * ((max (-1) (min 1 q) + 1) / 2))) ≤ 1 := by
  have hc1 : (-1 : ℚ) ≤ max (-1) (min 1 q) := le_max_left _ _
  have hc2 : max (-1) (min 1 q) ≤ 1 := max_le (by norm_num) (min_le_left _ _)
  have hn0 : 0 ≤ (max (-1) (min 1 q) + 1) / 2 := by linarith
  have hn1 : (max (-1) (min 1 q) + 1) / 2 ≤ 1 := by linarith
  have hd0 : 0 ≤ d * ((max (-1) (min 1 q) + 1) / 2) := mul_nonneg h0 hn0
  have hd1 : d * ((max (-1) (min 1 q) + 1) / 2) ≤ d := by
    have := mul_le_mul_of_nonneg_left hn1 h0
    linarith
  refine ⟨?lo, le_max_left _ _, max_le (by norm_num) (min_le_left _ _)⟩
  exact le_max_of_le_right (le_min (by linarith) (by linarith))

/-- C4: for every positive cycle duration and every duckAmount in
[0, 1], every sample of the gate gain curve lies in
[1 - duckAmount, 1] ∩ [0, 1] (for every sine function, so in
particular for the real one the source samples). -/
theorem gateCurve_sample_range (sinf : ℚ → ℚ) (pi gateSpeed sampleRate d : ℚ)
    (curveLength : ℕ) (hgs : 0 < gateSpeed) (h0 : 0 ≤ d) (h1 : d ≤ 1) :
    ∀ x ∈ scheduleGateCycleCurve sinf pi gateSpeed sampleRate d curveLength,
      1 - d ≤ x ∧ 0 ≤ x ∧ x ≤ 1 := by
  intro x hx
  simp only [scheduleGateCycleCurve, List.mem_map, List.mem_range] at hx
  obtain ⟨i, -, rfl⟩ := hx
  simp only [gateCurveSample]
  exact duckGain_sample_bounds d _ h0 h1

/-- Witness for C4 at duckAmount 1/2, unit cycle, one sample. -/
theorem gateCurve_sample_range_witness :
    (0 : ℚ) < 1 ∧ (0 : ℚ) ≤ 1 / 2 ∧ (1 / 2 : ℚ) ≤ 1 ∧
    (1 - 1 / 2 ≤ gateCurveSample (fun _ => 0) 3 1 1 (1 / 2) 0 ∧
      0 ≤ gateCurveSample (fun _ => 0) 3 1 1 (1 / 2) 0 ∧
      gateCurveSample (fun _ => 0) 3 1 1 (1 / 2) 0 ≤ 1) :=
  ⟨by norm_num, by norm_num, by norm_num,
    gateCurve_sample_range (fun _ => 0) 3 1 1 (1 / 2) 1 (by norm_num) (by norm_num)
      (by norm_num) (gateCurveSample (fun _ => 0) 3 1 1 (1 / 2) 0)
      (by simp [scheduleGateCycleCurve, List.range_succ])⟩

/-- C5: buildChordFrequencies returns the triad frequencies first, in
declared interval order, then one frequency per recognized extension
in request order; concretely, with bass mode off, startChord on degree
2 (Do) gives exactly the voices 261.63, 261.63·5/4, 261.63·3/2, and
with the seventh extension a 4th voice at 261.63·15/8. -/
theorem buildChord_order_and_values (idx : ℕ) (chordType : String)
    (extensions : List String)
    (hidx : idx < 8) (hct : chordType = "major" ∨ chordType = "minor") :
    (buildChordFrequencies idx chordType extensions =
      buildChordFrequencies idx chordType [] ++
        extensions.filterMap (fun e => (chordIntervalsExt e).map
          (fun r => getFrequencyFromRatio r (getScaleNoteFrequency idx 0)))) ∧
    startChordFrequencies false 2 [] =
      [26163 / 100, 26163 / 100 * (5 / 4), 26163 / 100 * (3 / 2)] ∧
    startChordFrequencies false 2 ["seventh"] =
      [26163 / 100, 26163 / 100 * (5 / 4), 26163 / 100 * (3 / 2),
        26163 / 100 * (15 / 8)] := by
  refine ⟨by simp [buildChordFrequencies], ?do3, ?do4⟩
  · norm_num [startChordFrequencies, buildChordFrequencies, scaleDegreeChordTypes,
      chordIntervalsTriad, chordIntervalsExt, getScaleNoteFrequency,
      getFrequencyFromRatio, majorScaleRatios, ROOT_FREQUENCY,
      List.filterMap_cons, List.filterMap_nil]
  · norm_num [startChordFrequencies, buildChordFrequencies, scaleDegreeChordTypes,
      chordIntervalsTriad, chordIntervalsExt, getScaleNoteFrequency,
      getFrequencyFromRatio, majorScaleRatios, ROOT_FREQUENCY,
      List.filterMap_cons, List.filterMap_nil]

/-- Witness for C5 at degree 2, major triad, one requested ninth. -/
theorem buildChord_order_and_values_witness :
    2 < 8 ∧ ("major" = "major" ∨ "major" = "minor") ∧
    buildChordFrequencies 2 "major" ["ninth"] =
      buildChordFrequencies 2 "major" [] ++
        ["ninth"].filterMap (fun e => (chordIntervalsExt e).map
          (fun r => getFrequencyFromRatio r (getScaleNoteFrequency 2 0))) :=
  ⟨by decide, Or.inl rfl,
    (buildChord_order_and_values 2 "major" ["ninth"] (by decide) (Or.inl rfl)).1⟩

/-- C3 counterexample: from a running state with positive ducking
amount, updateGateSpeedSequence([]) does not disable the gate: the
default sequence ["4"] is substituted, a duck cycle is applied and the
next-cycle timer stays armed, instead of the gain being forced to 1.0. -/
theorem updateGateSpeedSequence_empty_keeps_running :
    (updateGateSpeedSequence (fun _ => 0) [] false gateStateRunning).sched ≠
      GainSched.forcedOne ∧
    (updateGateSpeedSequence (fun _ => 0) [] false gateStateRunning).timeoutPending =
      true ∧
    (updateGateSpeedSequence (fun _ => 0) [] false gateStateRunning).gateSpeedSequence =
      ["4"] := by
  refine ⟨by decide, by decide, by decide⟩

/-- C3 (amended): updateGateAmount(0) disables the gate for every
prior state (gain forced to 1.0, pending cycle timer cleared, no cycle
scheduled), and startGateLoop disables likewise whenever the working
sequence is empty; but updateGateSpeedSequence([]) does not disable
the gate: it substitutes the default sequence ["4"] and behaves
exactly as updateGateSpeedSequence(["4"]). -/
theorem gateDisable_behavior (rand : ℕ → ℕ) (s : GateState) :
    ((updateGateAmount rand 0 s).sched = GainSched.forcedOne ∧
      (updateGateAmount rand 0 s).timeoutPending = false) ∧
    (s.gateSpeedSequence = [] →
      (startGateLoop rand s).sched = GainSched.forcedOne ∧
      (startGateLoop rand s).timeoutPending = false) ∧
    (∀ randomEnabled, updateGateSpeedSequence rand [] randomEnabled s =
      updateGateSpeedSequence rand ["4"] randomEnabled s) := by
  refine ⟨?amount0, ?emptyseq, ?defaulted⟩
  · constructor <;> simp [updateGateAmount, startGateLoop]
  · intro h
    rw [startGateLoop]
    dsimp only
    by_cases ha : s.gateAmount = 0
    · rw [if_pos ha]
      exact ⟨rfl, rfl⟩
    · rw [if_neg ha, if_pos h]
      exact ⟨rfl, rfl⟩
  · intro r
    rfl

/-- Witness for C3 (amended): at a state whose working sequence is
empty, startGateLoop forces the gain to 1.0 and clears the timer. -/
theorem gateDisable_behavior_witness :
    ({ gateStateRunning with gateSpeedSequence := [] }).gateSpeedSequence = [] ∧
    ((startGateLoop (fun _ => 0)
        { gateStateRunning with gateSpeedSequence := [] }).sched = GainSched.forcedOne ∧
      (startGateLoop (fun _ => 0)
        { gateStateRunning with gateSpeedSequence := [] }).timeoutPending = false) :=
  ⟨rfl, (gateDisable_behavior (fun _ => 0)
    { gateStateRunning with gateSpeedSequence := [] }).2.1 rfl⟩

/-- C9: whenever random mode is enabled and the base sequence is
non-empty (and a cycle actually fires: amount non-zero, working
sequence non-empty), scheduleNextGateCycle reshuffles the base and
resets the cursor before reading, so the token used is element 0 of a
fresh shuffle, and the cursor value left by the previous cycle's
increment has no effect on the cycle at all. -/
theorem randomMode_uses_fresh_shuffle (rand : ℕ → ℕ) (s : GateState) (idx : ℕ)
    (hrand : s.gateRandomEnabled = true) (hbase : s.gateBaseSequence ≠ [])
    (hamt : s.gateAmount ≠ 0) (hseq : s.gateSpeedSequence ≠ []) :
    (scheduleNextGateCycle rand s).sched =
      GainSched.curveApplied ((shuffleArray s.gateBaseSequence rand).getD 0 "")
        (s.gateAmount / 100) ∧
    scheduleNextGateCycle rand { s with gateSequenceIndex := idx } =
      scheduleNextGateCycle rand s := by
  have hguard : ¬(s.gateAmount = 0 ∨ s.gateSpeedSequence = []) := by
    rintro (h | h)
    · exact hamt h
    · exact hseq h
  have hcond : s.gateRandomEnabled = true ∧ s.gateBaseSequence.length > 0 :=
    ⟨hrand, List.length_pos.mpr hbase⟩
  constructor
  · rw [scheduleNextGateCycle, if_neg hguard, if_pos hcond]
  · rw [scheduleNextGateCycle]
    dsimp only
    rw [scheduleNextGateCycle]
    rw [if_neg hguard, if_pos hcond]
    rw [if_neg hguard, if_pos hcond]

/-- Witness for C9 at a concrete random-mode state, stale cursor 5. -/
theorem randomMode_uses_fresh_shuffle_witness :
    gateStateRandom.gateRandomEnabled = true ∧
    gateStateRandom.gateBaseSequence ≠ [] ∧
    gateStateRandom.gateAmount ≠ 0 ∧
    gateStateRandom.gateSpeedSequence ≠ [] ∧
    ((scheduleNextGateCycle (fun _ => 0) gateStateRandom).sched =
      GainSched.curveApplied
        ((shuffleArray gateStateRandom.gateBaseSequence (fun _ => 0)).getD 0 "")
        (gateStateRandom.gateAmount / 100) ∧
      scheduleNextGateCycle (fun _ => 0)
          { gateStateRandom with gateSequenceIndex := 5 } =
        scheduleNextGateCycle (fun _ => 0) gateStateRandom) :=
  ⟨rfl, by decide, by decide, by decide,
    randomMode_uses_fresh_shuffle (fun _ => 0) gateStateRandom 5 rfl (by decide)
      (by decide) (by decide)⟩

theorem extensionLoop_agrees (rootFreq : ℚ) (extensions : List String)
    (hexts : ∀ u ∈ extensions,
      CHORD_INTERVALS u = (chordIntervalsExt u).map (fun rd => ChordRow.ratio rd.1 rd.2)) :
    extensions.filterMap
        (fun e => (CHORD_INTERVALS e).map (fun row => getFrequencyFromChordRow row rootFreq)) =
      (extensions.filterMap
        (fun e => (chordIntervalsExt e).map (fun r => getFrequencyFromRatio r rootFreq))).map
        JsNum.num := by
  induction extensions with
  | nil => rfl
  | cons u rest ih =>
    have hu := hexts u (List.mem_cons_self u rest)
    have hrest := ih (fun w hw => hexts w (List.mem_cons_of_mem u hw))
    rw [List.filterMap_cons, List.filterMap_cons, hu]
    cases hcu : chordIntervalsExt u with
    | none =>
      simp only [Option.map_none']
      exact hrest
    | some rd =>
      simp only [Option.map_some']
      rw [hrest]
      rfl

/-- The rational model and the JavaScript-number model agree on every
extension list that stays off the triad keys (in particular on the
five recognized extension names and on absent names). -/
theorem buildChordFrequenciesJs_agrees (idx : ℕ) (chordType : String)
    (extensions : List String) (hct : chordType = "major" ∨ chordType = "minor")
    (hexts : ∀ u ∈ extensions,
      CHORD_INTERVALS u = (chordIntervalsExt u).map (fun rd => ChordRow.ratio rd.1 rd.2)) :
    buildChordFrequenciesJs idx chordType extensions =
      (buildChordFrequencies idx chordType extensions).map JsNum.num := by
  have hext := extensionLoop_agrees (getScaleNoteFrequency idx 0) extensions hexts
  rcases hct with rfl | rfl <;>
    simp only [buildChordFrequenciesJs, buildChordFrequencies, hext, List.map_append] <;>
    rfl

/-- C7 counterexample: "major" is not one of the five recognized
extensions, yet buildChordFrequencies does not skip it: the triad row
is a truthy CHORD_INTERVALS entry, so the call gains an extra (NaN)
element instead of equaling the call with the name removed. -/
theorem buildChord_major_extension_not_skipped :
    buildChordFrequenciesJs 2 "major" ["major"] ≠ buildChordFrequenciesJs 2 "major" [] ∧
    buildChordFrequenciesJs 2 "major" ["major"] =
      buildChordFrequenciesJs 2 "major" [] ++ [JsNum.nan] := by
  have heq : buildChordFrequenciesJs 2 "major" ["major"] =
      buildChordFrequenciesJs 2 "major" [] ++ [JsNum.nan] := rfl
  refine ⟨?ne, heq⟩
  intro h
  rw [heq] at h
  have hl := congrArg List.length h
  rw [List.length_append] at hl
  simp at hl

/-- C7 (amended): buildChordFrequencies silently skips exactly the
extension names absent from CHORD_INTERVALS (no error raised); the
triad keys "major" and "minor" are truthy entries and are NOT
skipped: requesting one as an extension appends a NaN frequency, the
ratio arithmetic on an array of arrays, at its requested position. -/
theorem buildChord_extension_skip_rule (rootNoteIndex : ℕ) (chordType : String)
    (pre post : List String) (u : String) :
    (CHORD_INTERVALS u = none →
      buildChordFrequenciesJs rootNoteIndex chordType (pre ++ u :: post) =
        buildChordFrequenciesJs rootNoteIndex chordType (pre ++ post)) ∧
    buildChordFrequenciesJs rootNoteIndex chordType (pre ++ "major" :: post) =
      buildChordFrequenciesJs rootNoteIndex chordType pre ++ JsNum.nan ::
        post.filterMap (fun e => (CHORD_INTERVALS e).map
          (fun row => getFrequencyFromChordRow row (getScaleNoteFrequency rootNoteIndex 0))) ∧
    buildChordFrequenciesJs rootNoteIndex chordType (pre ++ "minor" :: post) =
      buildChordFrequenciesJs rootNoteIndex chordType pre ++ JsNum.nan ::
        post.filterMap (fun e => (CHORD_INTERVALS e).map
          (fun row => getFrequencyFromChordRow row (getScaleNoteFrequency rootNoteIndex 0))) := by
  have hmaj : CHORD_INTERVALS "major" = some (ChordRow.triad [(1, 1), (5, 4), (3, 2)]) := by
    decide
  have hmin : CHORD_INTERVALS "minor" = some (ChordRow.triad [(1, 1), (6, 5), (3, 2)]) := by
    decide
  refine ⟨?skip, ?major, ?minor⟩
  · intro hu
    simp [buildChordFrequenciesJs, List.filterMap_append, List.filterMap_cons, hu]
  · simp [buildChordFrequenciesJs, List.filterMap_append, List.filterMap_cons, hmaj,
      getFrequencyFromChordRow]
  · simp [buildChordFrequenciesJs, List.filterMap_append, List.filterMap_cons, hmin,
      getFrequencyFromChordRow]

/-- Witness for C7 (amended) at the absent name "sixth". -/
theorem buildChord_extension_skip_rule_witness :
    CHORD_INTERVALS "sixth" = none ∧
    buildChordFrequenciesJs 2 "major" ["seventh", "sixth"] =
      buildChordFrequenciesJs 2 "major" ["seventh"] :=
  ⟨by decide,
    (buildChord_extension_skip_rule 2 "major" ["seventh"] [] "sixth").1 (by decide)⟩

end Doremichord
